import Mathlib

/-!
Verification of the Yul optimiser suite driver (`libyul/optimiser/Suite.cpp`).

The development shallowly embeds the pipeline scheduler: the pass registry and
its name/abbreviation tables, the abbreviation-string sequence interpreter
`runSequence`, the bounded fixed-point loop `runSequenceUntilStable`, and the
top-level orchestrator `OptimiserSuite::run`.  Individual optimisation passes
are external collaborators and are modelled as opaque tree transformers
(`StepImpl`), exactly as the driver consumes them.
-/

namespace YulOpt

/-- The two fatal error classes of the error-handling design, plus the C++
standard-library exception that `std::get<Block>` can raise in the Wasm
finishing step.  `optimizer` stands for `OptimizerException` thrown by
`assertThrow(..., OptimizerException, ...)`; `invariantViolation` stands for
the `yulAssert` assertion class. -/
inductive YulError where
  | optimizer (msg : String)
  | invariantViolation (msg : String)
  | stdException (msg : String)
deriving DecidableEq

deriving instance DecidableEq for Except

/-- Whether an error belongs to the malformed-schedule (`OptimizerException`)
class. -/
def YulError.isOptimizer : YulError → Bool
  | .optimizer _ => true
  | _ => false

/-- A Yul statement: either a nested block or any other statement form
(expression statement, function definition, ...), which the driver never
inspects and which we tag with a number. -/
inductive Stmt where
  | blockStmt (statements : List Stmt)
  | other (tag : Nat)

mutual

/-- Decidable equality on statements (the automatic derivation does not
handle the nested list). -/
def stmtDecEq : (a b : Stmt) → Decidable (a = b)
  | .blockStmt xs, .blockStmt ys =>
    match stmtsDecEq xs ys with
    | .isTrue h => .isTrue (congrArg Stmt.blockStmt h)
    | .isFalse h => .isFalse (fun hh => h (Stmt.blockStmt.inj hh))
  | .blockStmt _, .other _ => .isFalse (fun h => Stmt.noConfusion h)
  | .other _, .blockStmt _ => .isFalse (fun h => Stmt.noConfusion h)
  | .other m, .other n =>
    match Nat.decEq m n with
    | .isTrue h => .isTrue (congrArg Stmt.other h)
    | .isFalse h => .isFalse (fun hh => h (Stmt.other.inj hh))

/-- Decidable equality on statement lists. -/
def stmtsDecEq : (xs ys : List Stmt) → Decidable (xs = ys)
  | [], [] => .isTrue rfl
  | [], _ :: _ => .isFalse (fun h => List.noConfusion h)
  | _ :: _, [] => .isFalse (fun h => List.noConfusion h)
  | x :: xs, y :: ys =>
    match stmtDecEq x y, stmtsDecEq xs ys with
    | .isTrue h1, .isTrue h2 => .isTrue (by rw [h1, h2])
    | .isFalse h1, _ =>
      .isFalse (fun hh => h1 (by cases hh; rfl))
    | _, .isFalse h2 =>
      .isFalse (fun hh => h2 (by cases hh; rfl))

end

instance : DecidableEq Stmt := stmtDecEq

/-- A Yul `Block`: a list of statements.  This is the tree the optimiser
mutates in place. -/
structure Block where
  statements : List Stmt
deriving DecidableEq

mutual

/-- Modelled from the spec: the Convergence Metric is "an integer `code size`
computed from the current tree, used only as a comparison value between rounds
of a stability loop".  `CodeSize` lives in `libyul/optimiser/Metrics.cpp`,
which is not among the sources here; we model it as the node count of the
tree, where a nested block contributes no cost of its own and every other
statement costs one unit. -/
def stmtSize : Stmt → Nat
  | .blockStmt ss => stmtsSize ss
  | .other _ => 1

/-- Total size of a list of statements (helper for `stmtSize`). -/
def stmtsSize : List Stmt → Nat
  | [] => 0
  | s :: rest => stmtSize s + stmtsSize rest

end

/-- Modelled from the spec: `CodeSize::codeSizeIncludingFunctions(_ast)`, the
Convergence Metric of a whole tree (see `stmtSize`). -/
def codeSizeIncludingFunctions (b : Block) : Nat :=
  stmtsSize b.statements

/-- The names of the 28 registered optimiser steps, in the registration order
of `OptimiserSuite::allSteps` (Suite.cpp lines 179-206).  Each step's `name`
constant is the name of its class (declared in the per-pass headers, which
only their class names reach this translation unit). -/
def allStepNames : List String :=
  [ "BlockFlattener"
  , "CircularReferencesPruner"
  , "CommonSubexpressionEliminator"
  , "ConditionalSimplifier"
  , "ConditionalUnsimplifier"
  , "ControlFlowSimplifier"
  , "DeadCodeEliminator"
  , "EquivalentFunctionCombiner"
  , "ExpressionInliner"
  , "ExpressionJoiner"
  , "ExpressionSimplifier"
  , "ExpressionSplitter"
  , "ForLoopConditionIntoBody"
  , "ForLoopConditionOutOfBody"
  , "ForLoopInitRewriter"
  , "FullInliner"
  , "FunctionGrouper"
  , "FunctionHoister"
  , "LiteralRematerialiser"
  , "LoadResolver"
  , "LoopInvariantCodeMotion"
  , "RedundantAssignEliminator"
  , "Rematerialiser"
  , "SSAReverser"
  , "SSATransform"
  , "StructuralSimplifier"
  , "UnusedPruner"
  , "VarDeclInitializer" ]

/-- The hand-maintained name-to-abbreviation table of
`OptimiserSuite::stepNameToAbbreviationMap` (Suite.cpp lines 214-243). -/
def stepNameToAbbreviationList : List (String × Char) :=
  [ ("BlockFlattener",                'f')
  , ("CircularReferencesPruner",      'l')
  , ("CommonSubexpressionEliminator", 'c')
  , ("ConditionalSimplifier",         'C')
  , ("ConditionalUnsimplifier",       'U')
  , ("ControlFlowSimplifier",         'n')
  , ("DeadCodeEliminator",            'D')
  , ("EquivalentFunctionCombiner",    'v')
  , ("ExpressionInliner",             'e')
  , ("ExpressionJoiner",              'j')
  , ("ExpressionSimplifier",          's')
  , ("ExpressionSplitter",            'x')
  , ("ForLoopConditionIntoBody",      'I')
  , ("ForLoopConditionOutOfBody",     'O')
  , ("ForLoopInitRewriter",           'o')
  , ("FullInliner",                   'i')
  , ("FunctionGrouper",               'g')
  , ("FunctionHoister",               'h')
  , ("LiteralRematerialiser",         'T')
  , ("LoadResolver",                  'L')
  , ("LoopInvariantCodeMotion",       'M')
  , ("RedundantAssignEliminator",     'r')
  , ("Rematerialiser",                'm')
  , ("SSAReverser",                   'V')
  , ("SSATransform",                  'a')
  , ("StructuralSimplifier",          't')
  , ("UnusedPruner",                  'u')
  , ("VarDeclInitializer",            'd') ]

/-- Insertion loop of `optimiserStepCollection` (Suite.cpp lines 158-170): each
step is inserted under its name, and `yulAssert(!ret.count(s->name), "")`
makes a duplicate name a fatal invariant violation. -/
def insertSteps : List String → List String → Except YulError (List String)
  | acc, [] => .ok acc
  | acc, n :: rest =>
    if n ∈ acc then .error (.invariantViolation "duplicate step name")
    else insertSteps (acc ++ [n]) rest

/-- `optimiserStepCollection<Step...>()`: build the registry key set from a
list of step names, failing fatally on a duplicate name. -/
def optimiserStepCollection (names : List String) : Except YulError (List String) :=
  insertSteps [] names

/-- `OptimiserSuite::allSteps()`: the registry built from the 28 registered
steps (it deliberately omits `VarNameCleaner`). -/
def allSteps : Except YulError (List String) :=
  optimiserStepCollection allStepNames

/-- `OptimiserSuite::stepNameToAbbreviationMap()`: returns the hand-maintained
table after `yulAssert(lookupTable.size() == allSteps().size(), "")`. -/
def stepNameToAbbreviationMap : Except YulError (List (String × Char)) :=
  match allSteps with
  | .error e => .error e
  | .ok steps =>
    if stepNameToAbbreviationList.length = steps.length then
      .ok stepNameToAbbreviationList
    else
      .error (.invariantViolation "abbreviation table size mismatch")

/-- `OptimiserSuite::stepAbbreviationToNameMap()`: `util::invertMap` of the
name-to-abbreviation table. -/
def stepAbbreviationToNameList : List (Char × String) :=
  stepNameToAbbreviationList.map (fun p => (p.2, p.1))

/-- Lookup of one abbreviation character in `stepAbbreviationToNameMap()`
(`find` on the inverted table; keys are unique). -/
def abbreviationToName (c : Char) : Option String :=
  (stepAbbreviationToNameList.find? (fun p => p.1 = c)).map (fun p => p.2)

/-- Name-to-abbreviation lookup in the hand-maintained table. -/
def nameToAbbreviation (n : String) : Option Char :=
  (stepNameToAbbreviationList.find? (fun p => p.1 = n)).map (fun p => p.2)

/-- A pass implementation: every registered step is consumed by the driver
only through the uniform contract "apply this named pass to the tree" — the
passes themselves are external collaborators, so the whole development is
parametrised over their semantics. -/
def StepImpl : Type := String → Block → Block

/-- `OptimiserSuite::runSequence(vector<string> const&, Block&)` with
`m_debug == Debug::None`: run each named step in order on the tree
(`allSteps().at(step)->run(m_context, _ast)`). -/
def runSteps (impl : StepImpl) (steps : List String) (b : Block) : Block :=
  steps.foldl (fun t s => impl s t) b

/-- Loop of `OptimiserSuite::runSequenceUntilStable` (Suite.cpp lines
325-341), instrumented with the number of rounds that actually executed the
pass list.  The first argument of the recursion is the previous round's
metric, initialised to the baseline `size_t codeSize = 0`. -/
def runUntilStableAux (impl : StepImpl) (steps : List String) :
    Nat → Block → Nat → Block × Nat
  | _, b, 0 => (b, 0)
  | prev, b, n + 1 =>
    let newSize := codeSizeIncludingFunctions b
    if newSize = prev then (b, 0)
    else
      let r := runUntilStableAux impl steps newSize (runSteps impl steps b) n
      (r.1, r.2 + 1)

/-- `OptimiserSuite::runSequenceUntilStable(_steps, _ast, maxRounds)`:
repeatedly run the pass list until the Convergence Metric repeats or the
round cap is hit; also reports how many rounds ran the pass list. -/
def OptimiserSuite.runSequenceUntilStable (impl : StepImpl) (steps : List String)
    (b : Block) (maxRounds : Nat) : Block × Nat :=
  runUntilStableAux impl steps 0 b maxRounds

/-- Modelled from the spec: the default round cap `MaxRounds` is declared in
`Suite.h` (not among the sources); the spec only requires it to be a fixed
"round budget".  Its concrete value is immaterial to every claim below. -/
def MaxRounds : Nat := 12

/-- Result of running an abbreviation sequence: the final tree, the names of
the steps executed (in execution order), and the exception if one was
thrown.  Because the tree is passed by reference in C++, the tree component
is meaningful even when an exception escaped. -/
structure SeqResult where
  ast : Block
  trace : List String
  err : Option YulError
deriving DecidableEq

/-- Character scan of `OptimiserSuite::runSequence(string const&, Block&)`
(Suite.cpp lines 256-298): accumulate step names; on `(` flush the
accumulated plain run and enter a loop (nested loops are a fatal
`OptimizerException`); on `)` run the accumulated body until stable; spaces
and newlines are skipped; any other unknown character is a fatal
`OptimizerException`; a loop still open at the end of the input is a fatal
`OptimizerException`. -/
def runSequenceAux (impl : StepImpl) :
    List Char → Bool → List String → Block → List String → SeqResult
  | [], insideLoop, steps, b, tr =>
    if insideLoop then ⟨b, tr, some (.optimizer "Unbalanced parenthesis")⟩
    else if steps.isEmpty then ⟨b, tr, none⟩
    else ⟨runSteps impl steps b, tr ++ steps, none⟩
  | ch :: rest, insideLoop, steps, b, tr =>
    match abbreviationToName ch with
    | some nm => runSequenceAux impl rest insideLoop (steps ++ [nm]) b tr
    | none =>
      if ch = ' ' ∨ ch = '\n' then
        runSequenceAux impl rest insideLoop steps b tr
      else if ch = '(' then
        if insideLoop then ⟨b, tr, some (.optimizer "Nested parentheses not supported")⟩
        else if steps.isEmpty then runSequenceAux impl rest true [] b tr
        else runSequenceAux impl rest true [] (runSteps impl steps b) (tr ++ steps)
      else if ch = ')' then
        if insideLoop then
          if steps.isEmpty then runSequenceAux impl rest false [] b tr
          else
            let r := OptimiserSuite.runSequenceUntilStable impl steps b MaxRounds
            runSequenceAux impl rest false [] r.1 (tr ++ (List.replicate r.2 steps).flatten)
        else ⟨b, tr, some (.optimizer "Unbalanced parenthesis")⟩
      else ⟨b, tr, some (.optimizer "Invalid optimisation step abbreviation")⟩

/-- `OptimiserSuite::runSequence(string const& _stepAbbreviations, Block&)`. -/
def OptimiserSuite.runSequence (impl : StepImpl) (s : String) (b : Block) : SeqResult :=
  runSequenceAux impl s.data false [] b []

/-- Pure replay of the scanner's control flow that records only the exception
outcome: the error behaviour of `runSequence` depends only on the character
string, never on the tree or the pass implementations. -/
def scanErr : List Char → Bool → Option YulError
  | [], insideLoop =>
    if insideLoop then some (.optimizer "Unbalanced parenthesis") else none
  | ch :: rest, insideLoop =>
    match abbreviationToName ch with
    | some _ => scanErr rest insideLoop
    | none =>
      if ch = ' ' ∨ ch = '\n' then scanErr rest insideLoop
      else if ch = '(' then
        if insideLoop then some (.optimizer "Nested parentheses not supported")
        else scanErr rest true
      else if ch = ')' then
        if insideLoop then scanErr rest false
        else some (.optimizer "Unbalanced parenthesis")
      else some (.optimizer "Invalid optimisation step abbreviation")

/-- The target dialect, distinguished in the source by `dynamic_cast` to
`EVMDialect` and `WasmDialect`; `other` covers every remaining dialect. -/
inductive Dialect where
  | evm
  | wasm
  | other
deriving DecidableEq

/-- The external collaborators consumed by `OptimiserSuite::run`: the pass
implementations, the `Disambiguator`, the `StackCompressor` (whose boolean
result the driver discards and whose internal 16-iteration cap is internal to
it), the `ConstantOptimiser`, the `VarNameCleaner`, and
`AsmAnalyzer::analyzeStrictAssertCorrect` (abstracted to whether it
succeeds). -/
structure Externals where
  impl : StepImpl
  disambiguate : Block → Block
  stackCompressor : Block → Block
  constantOptimiser : Block → Block
  varNameCleaner : Block → Block
  analyzeOk : Block → Bool

/-- Wasm finishing step of `OptimiserSuite::run` (Suite.cpp lines 142-148):
`if (ast.statements.size() > 1 && std::get<Block>(ast.statements.front()).statements.empty())`
erase the first statement.  `std::get<Block>` on a non-block first statement
raises `std::bad_variant_access`. -/
def wasmFinish (b : Block) : Except YulError Block :=
  if 1 < b.statements.length then
    match b.statements.head? with
    | some (.blockStmt ss) =>
      if ss.isEmpty then .ok ⟨b.statements.tail⟩ else .ok b
    | some (.other _) => .error (.stdException "bad_variant_access")
    | none => .ok b
  else .ok b

/-- Dialect-specific finishing step of `OptimiserSuite::run` (Suite.cpp lines
137-148): for the EVM dialect, `yulAssert(_meter, "")` then the constant
optimiser; for the Wasm dialect, the empty-first-block removal; otherwise
nothing. -/
def dialectFinish (d : Dialect) (meter : Option Unit)
    (constantOptimiser : Block → Block) (b : Block) : Except YulError Block :=
  match d with
  | .evm =>
    match meter with
    | none => .error (.invariantViolation "")
    | some _ => .ok (constantOptimiser b)
  | .wasm => wasmFinish b
  | .other => .ok b

/-- The hand-tuned default sequence literal of Suite.cpp lines 104-119,
concatenated exactly as the adjacent C++ string literals are. -/
def defaultSequence : String :=
  "dhfoDgvulfnTUtnIf"
    ++ "("
      ++ "xarrscLM"
      ++ "cCTUtTOntnfDIul"
      ++ "Lcul"
      ++ "Vcul jj"
      ++ "eul"
      ++ "xarulrul"
      ++ "xarrcL"
      ++ "gvif"
      ++ "CTUcarrLsTOtfDncarrIulc"
    ++ ")"
    ++ "jmuljuljul VcTOcul jmul"

/-- Main sequence stage of `OptimiserSuite::run` (Suite.cpp lines 95-121):
with a custom sequence run the bootstrap `"fgo"` and then the custom
sequence; otherwise run the hand-tuned default sequence. -/
def runSequencePhase (ext : Externals) (custom : Option String) (b1 : Block) : SeqResult :=
  match custom with
  | some seq =>
    match OptimiserSuite.runSequence ext.impl "fgo" b1 with
    | ⟨b2, t2, some e⟩ => ⟨b2, t2, some e⟩
    | ⟨b2, t2, none⟩ =>
      match OptimiserSuite.runSequence ext.impl seq b2 with
      | ⟨b3, t3, e3⟩ => ⟨b3, t2 ++ t3, e3⟩
  | none => OptimiserSuite.runSequence ext.impl defaultSequence b1

/-- Stages of `OptimiserSuite::run` after the main sequence (Suite.cpp lines
123-151): the `"g"` cleanup, the stack compressor, the `"fDnTOc g"` cleanup,
the dialect-specific finishing step, `VarNameCleaner`, and the strict
re-analysis. -/
def runFinishPhase (ext : Externals) (dialect : Dialect) (meter : Option Unit)
    (r1 : SeqResult) : SeqResult :=
  match r1 with
  | ⟨b4, t4, some e⟩ => ⟨b4, t4, some e⟩
  | ⟨b4, t4, none⟩ =>
    match OptimiserSuite.runSequence ext.impl "g" b4 with
    | ⟨b5, t5, some e⟩ => ⟨b5, t4 ++ t5, some e⟩
    | ⟨b5, t5, none⟩ =>
      let b6 := ext.stackCompressor b5
      match OptimiserSuite.runSequence ext.impl "fDnTOc g" b6 with
      | ⟨b7, t7, some e⟩ => ⟨b7, t4 ++ t5 ++ t7, some e⟩
      | ⟨b7, t7, none⟩ =>
        match dialectFinish dialect meter ext.constantOptimiser b7 with
        | .error e => ⟨b7, t4 ++ t5 ++ t7, some e⟩
        | .ok b8 =>
          let b9 := ext.varNameCleaner b8
          if ext.analyzeOk b9 then ⟨b9, t4 ++ t5 ++ t7, none⟩
          else ⟨b9, t4 ++ t5 ++ t7, some (.invariantViolation "AsmAnalyzer")⟩

/-- `OptimiserSuite::run` (Suite.cpp lines 74-152): disambiguate, run the
main sequence stage, then the finishing stages.  Exceptions propagate: the
remaining stages do not run after one fails, and the tree keeps the
mutations made up to that point. -/
def OptimiserSuite.run (ext : Externals) (dialect : Dialect) (meter : Option Unit)
    (custom : Option String) (b0 : Block) : SeqResult :=
  runFinishPhase ext dialect meter (runSequencePhase ext custom (ext.disambiguate b0))

/-- A concrete bundle of external collaborators in which every pass and
external algorithm leaves the tree unchanged; used for concrete evaluations
of the orchestrator. -/
def idExternals : Externals where
  impl := fun _ t => t
  disambiguate := fun t => t
  stackCompressor := fun t => t
  constantOptimiser := fun t => t
  varNameCleaner := fun t => t
  analyzeOk := fun _ => true

/-- The metric value the stability loop has "recorded in the previous round"
when it enters round `i`, starting from the baseline `p0`: for round `0` it
is the baseline, for round `i + 1` it is the metric of the tree as round `i`
saw it. -/
def prevAt (impl : StepImpl) (steps : List String) (p0 : Nat) (b : Block) : Nat → Nat
  | 0 => p0
  | i + 1 => codeSizeIncludingFunctions ((runSteps impl steps)^[i] b)

/-- The two whitespace characters the scanner skips. -/
def notWs (c : Char) : Bool := !(c == ' ' || c == '\n')

/-- The exception outcome of the abbreviation scanner depends only on the
character list and the loop flag, never on the pass implementations, the
accumulated step names, the tree, or the trace. -/
theorem runSequenceAux_err (impl : StepImpl) :
    ∀ (cs : List Char) (il : Bool) (steps : List String) (b : Block) (tr : List String),
      (runSequenceAux impl cs il steps b tr).err = scanErr cs il
  | [], il, steps, b, tr => by
    simp only [runSequenceAux, scanErr]
    by_cases h : il
    · simp [h]
    · by_cases h2 : steps.isEmpty <;> simp [h, h2]
  | ch :: rest, il, steps, b, tr => by
    simp only [runSequenceAux, scanErr]
    rcases habb : abbreviationToName ch with _ | nm
    · simp only [habb]
      by_cases hws : ch = ' ' ∨ ch = '\n'
      · simp only [hws, if_pos]
        exact runSequenceAux_err impl rest il steps b tr
      · by_cases hop : ch = '('
        · by_cases hil : il
          · simp [hws, hop, hil]
          · by_cases h2 : steps.isEmpty <;>
              simp [hws, hop, hil, h2, runSequenceAux_err impl rest true [] _ _]
        · by_cases hcl : ch = ')'
          · by_cases hil : il
            · by_cases h2 : steps.isEmpty <;>
                simp [hws, hop, hcl, hil, h2, runSequenceAux_err impl rest false [] _ _]
            · simp [hws, hop, hcl, hil]
          · simp [hws, hop, hcl]
    · simp only [habb]
      exact runSequenceAux_err impl rest il (steps ++ [nm]) b tr

/-- Every exception the scanner produces belongs to the malformed-schedule
(`OptimizerException`) class. -/
theorem scanErr_optimizer :
    ∀ (cs : List Char) (il : Bool) (e : YulError),
      scanErr cs il = some e → e.isOptimizer = true
  | [], il, e => by
    by_cases h : il <;> simp only [scanErr, h] <;> intro he
    · cases he; rfl
    · simp at he
  | ch :: rest, il, e => by
    simp only [scanErr]
    rcases habb : abbreviationToName ch with _ | nm
    · simp only
      by_cases hws : ch = ' ' ∨ ch = '\n'
      · simp only [hws, if_pos]
        exact scanErr_optimizer rest il e
      · by_cases hop : ch = '('
        · by_cases hil : il
          · simp only [hws, hop, hil, if_true, if_false, if_neg]
            intro he; cases he; rfl
          · simp only [hws, hop, hil, if_true, if_false, if_neg]
            exact scanErr_optimizer rest true e
        · by_cases hcl : ch = ')'
          · by_cases hil : il
            · simp only [hws, hop, hcl, hil, if_true, if_false, if_neg]
              exact scanErr_optimizer rest false e
            · simp only [hws, hop, hcl, hil, if_true, if_false, if_neg]
              intro he; cases he; rfl
          · simp only [hws, hop, hcl, if_false, if_neg]
            intro he; cases he; rfl
    · simp only
      exact scanErr_optimizer rest il e

/-- Registering a list of step names containing a duplicate always trips the
`yulAssert` in `optimiserStepCollection`'s insertion loop. -/
theorem insertSteps_dup :
    ∀ (names acc : List String), acc.Nodup → ¬ (acc ++ names).Nodup →
      insertSteps acc names = .error (.invariantViolation "duplicate step name")
  | [], acc, hacc, hdup => absurd (by simpa using hacc) hdup
  | n :: rest, acc, hacc, hdup => by
    simp only [insertSteps]
    by_cases hn : n ∈ acc
    · simp [hn]
    · simp only [hn, if_neg, if_false]
      apply insertSteps_dup rest (acc ++ [n])
      · rw [List.nodup_append]
        exact ⟨hacc, List.nodup_singleton n, by simpa [List.disjoint_singleton] using hn⟩
      · intro h
        exact hdup (by simpa [List.append_assoc] using h)

theorem prevAt_shift (impl : StepImpl) (steps : List String) (p0 : Nat) (b : Block)
    (i : Nat) :
    prevAt impl steps (codeSizeIncludingFunctions b) (runSteps impl steps b) i
      = prevAt impl steps p0 b (i + 1) := by
  cases i with
  | zero => simp [prevAt]
  | succ k =>
    simp only [prevAt]
    rw [Function.iterate_succ_apply]

/-- Full characterisation of the stability loop starting from an arbitrary
baseline `p`: the number `c` of rounds that ran the pass list is at most the
round cap, the final tree is the `c`-fold iterate of one pass-list run, no
round before round `c` saw the metric repeat, and if the loop stopped below
the cap it stopped precisely because round `c` saw the metric repeat. -/
theorem runUntilStableAux_spec (impl : StepImpl) (steps : List String) :
    ∀ (n p : Nat) (b : Block),
      (runUntilStableAux impl steps p b n).2 ≤ n ∧
      (runUntilStableAux impl steps p b n).1
        = (runSteps impl steps)^[(runUntilStableAux impl steps p b n).2] b ∧
      (∀ i < (runUntilStableAux impl steps p b n).2,
        codeSizeIncludingFunctions ((runSteps impl steps)^[i] b)
          ≠ prevAt impl steps p b i) ∧
      ((runUntilStableAux impl steps p b n).2 < n →
        codeSizeIncludingFunctions
            ((runSteps impl steps)^[(runUntilStableAux impl steps p b n).2] b)
          = prevAt impl steps p b (runUntilStableAux impl steps p b n).2)
  | 0, p, b => by
    simp [runUntilStableAux]
  | n + 1, p, b => by
    by_cases h : codeSizeIncludingFunctions b = p
    · have hres : runUntilStableAux impl steps p b (n + 1) = (b, 0) := by
        simp [runUntilStableAux, h]
      rw [hres]
      refine ⟨Nat.zero_le _, by simp, ?_, ?_⟩
      · intro i hi
        exact absurd hi (Nat.not_lt_zero i)
      · intro _
        simpa [prevAt] using h
    · obtain ⟨ih1, ih2, ih3, ih4⟩ := runUntilStableAux_spec impl steps n
        (codeSizeIncludingFunctions b) (runSteps impl steps b)
      have hc : (runUntilStableAux impl steps p b (n + 1)).2
          = (runUntilStableAux impl steps (codeSizeIncludingFunctions b)
              (runSteps impl steps b) n).2 + 1 := by
        simp [runUntilStableAux, h]
      have hb : (runUntilStableAux impl steps p b (n + 1)).1
          = (runUntilStableAux impl steps (codeSizeIncludingFunctions b)
              (runSteps impl steps b) n).1 := by
        simp [runUntilStableAux, h]
      rw [hb, hc]
      refine ⟨Nat.succ_le_succ ih1, ?_, ?_, ?_⟩
      · rw [ih2, Function.iterate_succ_apply]
      · intro i hi
        cases i with
        | zero =>
          simpa [prevAt] using h
        | succ j =>
          have h3 := ih3 j (Nat.lt_of_succ_lt_succ hi)
          rw [prevAt_shift impl steps p b j] at h3
          rw [Function.iterate_succ_apply]
          exact h3
      · intro hlt
        have h4 := ih4 (Nat.lt_of_succ_lt_succ hlt)
        rw [prevAt_shift impl steps p b] at h4
        rw [Function.iterate_succ_apply]
        exact h4

/-- Deleting the skipped whitespace characters from an abbreviation string
changes nothing: not the passes run, not their order, not the resulting
tree, and not the exception outcome. -/
theorem runSequenceAux_filter_ws (impl : StepImpl) :
    ∀ (cs : List Char) (il : Bool) (steps : List String) (b : Block) (tr : List String),
      runSequenceAux impl cs il steps b tr
        = runSequenceAux impl (cs.filter notWs) il steps b tr
  | [], _, _, _, _ => rfl
  | ch :: rest, il, steps, b, tr => by
    by_cases hws : ch = ' ' ∨ ch = '\n'
    · have habb : abbreviationToName ch = none := by
        rcases hws with rfl | rfl <;> decide
      have hf : (ch :: rest).filter notWs = rest.filter notWs := by
        rcases hws with rfl | rfl <;> simp [List.filter_cons, notWs]
      rw [hf]
      simp only [runSequenceAux, habb, hws, if_pos]
      exact runSequenceAux_filter_ws impl rest il steps b tr
    · have hf : (ch :: rest).filter notWs = ch :: rest.filter notWs := by
        have : notWs ch = true := by
          simp only [notWs, Bool.not_eq_true']
          simp only [Bool.or_eq_false_iff, beq_eq_false_iff_ne]
          exact ⟨fun h => hws (Or.inl h), fun h => hws (Or.inr h)⟩
        simp [List.filter_cons, this]
      rw [hf]
      simp only [runSequenceAux]
      rcases habb : abbreviationToName ch with _ | nm
      · simp only [habb, hws, if_neg, if_false]
        by_cases hop : ch = '('
        · by_cases hil : il
          · simp [hop, hil]
          · by_cases h2 : steps.isEmpty <;>
              simp [hop, hil, h2, runSequenceAux_filter_ws impl rest true [] _ _]
        · by_cases hcl : ch = ')'
          · by_cases hil : il
            · by_cases h2 : steps.isEmpty <;>
                simp [hop, hcl, hil, h2, runSequenceAux_filter_ws impl rest false [] _ _]
            · simp [hop, hcl, hil]
          · simp [hop, hcl]
      · simp only [habb]
        exact runSequenceAux_filter_ws impl rest il (steps ++ [nm]) b tr

/-- The `"g"` cleanup sequence is one plain run of `FunctionGrouper`. -/
theorem runSequence_g (impl : StepImpl) (b : Block) :
    OptimiserSuite.runSequence impl "g" b
      = ⟨runSteps impl ["FunctionGrouper"] b, ["FunctionGrouper"], none⟩ := rfl

/-- The `"fDnTOc g"` cleanup sequence is one plain run of its seven steps. -/
theorem runSequence_fDnTOcg (impl : StepImpl) (b : Block) :
    OptimiserSuite.runSequence impl "fDnTOc g" b
      = ⟨runSteps impl
          ["BlockFlattener", "DeadCodeEliminator", "ControlFlowSimplifier",
           "LiteralRematerialiser", "ForLoopConditionOutOfBody",
           "CommonSubexpressionEliminator", "FunctionGrouper"] b,
         ["BlockFlattener", "DeadCodeEliminator", "ControlFlowSimplifier",
          "LiteralRematerialiser", "ForLoopConditionOutOfBody",
          "CommonSubexpressionEliminator", "FunctionGrouper"], none⟩ := rfl

/-- Whatever the finishing stages do, the trace of the whole pipeline extends
the trace of the main sequence stage. -/
theorem runFinishPhase_trace (ext : Externals) (dialect : Dialect) (meter : Option Unit)
    (r1 : SeqResult) :
    ∃ rest, (runFinishPhase ext dialect meter r1).trace = r1.trace ++ rest := by
  rcases r1 with ⟨b4, t4, e4⟩
  cases e4 with
  | some e => exact ⟨[], by simp [runFinishPhase]⟩
  | none =>
    simp only [runFinishPhase, runSequence_g, runSequence_fDnTOcg]
    refine ⟨["FunctionGrouper"] ++
      ["BlockFlattener", "DeadCodeEliminator", "ControlFlowSimplifier",
       "LiteralRematerialiser", "ForLoopConditionOutOfBody",
       "CommonSubexpressionEliminator", "FunctionGrouper"], ?_⟩
    split
    · simp [List.append_assoc]
    · split <;> simp [List.append_assoc]

/-- The trace of the main sequence stage with a custom sequence starts with
the three bootstrap passes that `"fgo"` denotes. -/
theorem runSequencePhase_custom_trace (ext : Externals) (s : String) (b1 : Block) :
    (runSequencePhase ext (some s) b1).trace
      = ["BlockFlattener", "FunctionGrouper", "ForLoopInitRewriter"]
        ++ (OptimiserSuite.runSequence ext.impl s
              (runSteps ext.impl
                ["BlockFlattener", "FunctionGrouper", "ForLoopInitRewriter"] b1)).trace :=
  rfl

/-- C1 (code-bug evidence): whenever a custom optimisation sequence is
supplied, `OptimiserSuite::run` does execute a three-pass bootstrap before it
and then the custom sequence, but the bootstrap string is `"fgo"` and under
the abbreviation table `'f'` is `BlockFlattener`, so the three passes are
`BlockFlattener`, `FunctionGrouper`, `ForLoopInitRewriter`.  `FunctionHoister`
is abbreviated `'h'` and never runs, contradicting the claim and the comment
at Suite.cpp lines 97-98. -/
theorem C1_bootstrap_runs_blockFlattener_not_functionHoister :
    (∀ (ext : Externals) (dialect : Dialect) (meter : Option Unit) (s : String) (b : Block),
      ∃ rest, (OptimiserSuite.run ext dialect meter (some s) b).trace
        = ["BlockFlattener", "FunctionGrouper", "ForLoopInitRewriter"] ++ rest) ∧
    abbreviationToName 'f' = some "BlockFlattener" ∧
    abbreviationToName 'h' = some "FunctionHoister" ∧
    (["BlockFlattener", "FunctionGrouper", "ForLoopInitRewriter"] : List String)
      ≠ ["FunctionHoister", "FunctionGrouper", "ForLoopInitRewriter"] := by
  refine ⟨?_, by decide, by decide, by decide⟩
  intro ext dialect meter s b
  obtain ⟨rest, hrest⟩ := runFinishPhase_trace ext dialect meter
    (runSequencePhase ext (some s) (ext.disambiguate b))
  refine ⟨(OptimiserSuite.runSequence ext.impl s
      (runSteps ext.impl ["BlockFlattener", "FunctionGrouper", "ForLoopInitRewriter"]
        (ext.disambiguate b))).trace ++ rest, ?_⟩
  show (runFinishPhase ext dialect meter
      (runSequencePhase ext (some s) (ext.disambiguate b))).trace = _
  rw [hrest, runSequencePhase_custom_trace, List.append_assoc]

/-- C2 (counterexample): the first-round baseline of
`runSequenceUntilStable` is `0`, and the Convergence Metric of the empty
tree is `0` as well — the baseline is not an impossible value.  With the
empty tree, a non-empty pass list, and the positive round cap, the loop
executes the pass list zero times. -/
theorem C2_counterexample_sentinel_attainable :
    codeSizeIncludingFunctions ⟨[]⟩ = 0 ∧
    0 < MaxRounds ∧
    (["BlockFlattener"] : List String) ≠ [] ∧
    (OptimiserSuite.runSequenceUntilStable (fun _ t => t) ["BlockFlattener"]
        ⟨[]⟩ MaxRounds).2 = 0 := by
  decide

/-- C2 (amended): the first-round baseline is the value `0`, which the
Convergence Metric can attain, so the loop is only guaranteed to execute a
non-empty pass list at least once when `max_rounds > 0` and the metric of
the initial tree is non-zero. -/
theorem C2_amended_at_least_one_round (impl : StepImpl) (steps : List String)
    (b : Block) (n : Nat) (hn : 0 < n) (hm : codeSizeIncludingFunctions b ≠ 0)
    (_hsteps : steps ≠ []) :
    1 ≤ (OptimiserSuite.runSequenceUntilStable impl steps b n).2 := by
  cases n with
  | zero => exact absurd hn (Nat.lt_irrefl 0)
  | succ m =>
    show 1 ≤ (runUntilStableAux impl steps 0 b (m + 1)).2
    have hres : runUntilStableAux impl steps 0 b (m + 1)
        = ((runUntilStableAux impl steps (codeSizeIncludingFunctions b)
             (runSteps impl steps b) m).1,
           (runUntilStableAux impl steps (codeSizeIncludingFunctions b)
             (runSteps impl steps b) m).2 + 1) := by
      simp [runUntilStableAux, hm]
    rw [hres]
    exact Nat.succ_le_succ (Nat.zero_le _)

/-- Witness for `C2_amended_at_least_one_round` at a concrete input. -/
theorem C2_amended_witness :
    1 ≤ (OptimiserSuite.runSequenceUntilStable (fun _ t => t) ["UnusedPruner"]
        ⟨[.other 0]⟩ 1).2 :=
  C2_amended_at_least_one_round (fun _ t => t) ["UnusedPruner"] ⟨[.other 0]⟩ 1
    (by decide) (by decide) (by decide)

/-- C3: the stability loop executes the pass list at most `max_rounds` times;
the final tree is exactly the corresponding iterate of one pass-list run; no
round before the stopping round saw the Convergence Metric (computed on the
current tree before running the passes) equal the previous round's record —
so it stops at the *first* such round; and whenever it stopped below the cap
it stopped precisely because of such an equality.  The function is total: when
the cap is reached without a fixed point it returns the iterated tree
normally, with no error channel at all. -/
theorem C3_until_stable_stops_at_first_repeat (impl : StepImpl) (steps : List String)
    (b : Block) (maxRounds : Nat) :
    (OptimiserSuite.runSequenceUntilStable impl steps b maxRounds).2 ≤ maxRounds ∧
    (OptimiserSuite.runSequenceUntilStable impl steps b maxRounds).1
      = (runSteps impl steps)^[(OptimiserSuite.runSequenceUntilStable impl steps b maxRounds).2]
          b ∧
    (∀ i < (OptimiserSuite.runSequenceUntilStable impl steps b maxRounds).2,
      codeSizeIncludingFunctions ((runSteps impl steps)^[i] b)
        ≠ prevAt impl steps 0 b i) ∧
    ((OptimiserSuite.runSequenceUntilStable impl steps b maxRounds).2 < maxRounds →
      codeSizeIncludingFunctions
          ((runSteps impl steps)^[(OptimiserSuite.runSequenceUntilStable impl steps b maxRounds).2]
            b)
        = prevAt impl steps 0 b
            (OptimiserSuite.runSequenceUntilStable impl steps b maxRounds).2) :=
  runUntilStableAux_spec impl steps maxRounds 0 b

/-- Witness for `C3_until_stable_stops_at_first_repeat` at a concrete input. -/
theorem C3_witness :
    (OptimiserSuite.runSequenceUntilStable (fun _ t => t) ["UnusedPruner"]
        ⟨[.other 0]⟩ 3).2 ≤ 3 :=
  (C3_until_stable_stops_at_first_repeat (fun _ t => t) ["UnusedPruner"] ⟨[.other 0]⟩ 3).1

/-- C4: every exception `runSequence` raises is of the malformed-schedule
class (`OptimizerException`), never the invariant-violation class, and each
of the spec's malformed inputs — an unmatched `(`, an unmatched `)`, a
nested `((`, a `(` left open after a closed loop, and an unknown character —
does raise one. -/
theorem C4_malformed_schedule_error_class :
    (∀ (impl : StepImpl) (s : String) (b : Block) (e : YulError),
      (OptimiserSuite.runSequence impl s b).err = some e → e.isOptimizer = true) ∧
    (∀ (impl : StepImpl) (b : Block),
      (OptimiserSuite.runSequence impl "(" b).err.isSome = true ∧
      (OptimiserSuite.runSequence impl ")" b).err.isSome = true ∧
      (OptimiserSuite.runSequence impl "((" b).err.isSome = true ∧
      (OptimiserSuite.runSequence impl "()(" b).err.isSome = true ∧
      (OptimiserSuite.runSequence impl "?" b).err.isSome = true) := by
  constructor
  · intro impl s b e he
    unfold OptimiserSuite.runSequence at he
    rw [runSequenceAux_err] at he
    exact scanErr_optimizer s.data false e he
  · intro impl b
    exact ⟨rfl, rfl, rfl, rfl, rfl⟩

/-- Witness for `C4_malformed_schedule_error_class` at a concrete input. -/
theorem C4_witness :
    YulError.isOptimizer (.optimizer "Invalid optimisation step abbreviation") = true :=
  C4_malformed_schedule_error_class.1 (fun _ t => t) "?" ⟨[]⟩
    (.optimizer "Invalid optimisation step abbreviation") (by decide)

/-- C7: running the empty abbreviation string executes no pass, raises no
error, and returns the very same tree. -/
theorem C7_empty_sequence_is_noop (impl : StepImpl) (b : Block) :
    OptimiserSuite.runSequence impl "" b = ⟨b, [], none⟩ := rfl

/-- C10: parsing and execution are interleaved with no rollback: on the input
`"f(("` the pass accumulated before the offending second `(` has already run
when the malformed-schedule exception is thrown, and for a pass
implementation that changes the tree the tree differs from its pre-call
state. -/
theorem C10_no_rollback_on_malformed_input :
    (∀ (impl : StepImpl) (b : Block),
      OptimiserSuite.runSequence impl "f((" b
        = ⟨runSteps impl ["BlockFlattener"] b, ["BlockFlattener"],
           some (.optimizer "Nested parentheses not supported")⟩) ∧
    (OptimiserSuite.runSequence (fun _ _ => ⟨[.other 7]⟩) "f((" ⟨[]⟩).ast ≠ ⟨[]⟩ ∧
    (OptimiserSuite.runSequence (fun _ _ => ⟨[.other 7]⟩) "f((" ⟨[]⟩).err.isSome = true := by
  exact ⟨fun impl b => rfl, by decide, by decide⟩

/-- C5 (counterexample): invoking the whole pipeline with the EVM dialect and
a null gas meter fails through `yulAssert` — the invariant-violation class —
not through the malformed-schedule (`OptimizerException`) class as the claim
states. -/
theorem C5_counterexample_meter_failure_class :
    (OptimiserSuite.run idExternals .evm none (some "") ⟨[]⟩).err
        = some (.invariantViolation "") ∧
    YulError.isOptimizer (.invariantViolation "") = false := by
  exact ⟨by decide, rfl⟩

/-- C5 (amended): with the EVM dialect and a null gas meter (and the default
sequence, which parses cleanly), the failure of `OptimiserSuite::run` is the
`yulAssert(_meter, "")` assertion — the invariant-violation class,
distinguishable from the malformed-schedule class. -/
theorem C5_amended_meter_failure_is_invariant_class (ext : Externals) (b : Block) :
    (OptimiserSuite.run ext .evm none none b).err = some (.invariantViolation "") := by
  have hdef : (OptimiserSuite.runSequence ext.impl defaultSequence
      (ext.disambiguate b)).err = none := by
    unfold OptimiserSuite.runSequence
    rw [runSequenceAux_err]
    decide
  show (runFinishPhase ext .evm none
      (OptimiserSuite.runSequence ext.impl defaultSequence (ext.disambiguate b))).err = _
  rcases hr : OptimiserSuite.runSequence ext.impl defaultSequence (ext.disambiguate b)
    with ⟨ba, ta, ea⟩
  rw [hr] at hdef
  simp only at hdef
  subst hdef
  simp only [runFinishPhase, runSequence_g, runSequence_fDnTOcg, dialectFinish]

/-- C6: the abbreviation table and the registered pass set have equal size,
the table's two columns are duplicate-free and its name column is exactly
the registered pass set (so the two lookup maps are mutually inverse
bijections), and registering two passes under the same name trips the fatal
`yulAssert` in the registry's insertion loop. -/
theorem C6_registry_consistency :
    allSteps = .ok allStepNames ∧
    stepNameToAbbreviationMap = .ok stepNameToAbbreviationList ∧
    stepNameToAbbreviationList.length = allStepNames.length ∧
    allStepNames.Nodup ∧
    (stepNameToAbbreviationList.map Prod.fst).Nodup ∧
    (stepNameToAbbreviationList.map Prod.snd).Nodup ∧
    stepNameToAbbreviationList.map Prod.fst = allStepNames ∧
    (∀ p ∈ stepNameToAbbreviationList,
      abbreviationToName p.2 = some p.1 ∧ nameToAbbreviation p.1 = some p.2) ∧
    (∀ names : List String, ¬ names.Nodup →
      optimiserStepCollection names = .error (.invariantViolation "duplicate step name")) := by
  refine ⟨by decide, by decide, by decide, by decide, by decide, by decide, by decide,
    by decide, ?_⟩
  intro names hdup
  exact insertSteps_dup names [] List.nodup_nil (by simpa using hdup)

/-- Witness for `C6_registry_consistency` at a concrete duplicated name. -/
theorem C6_witness :
    optimiserStepCollection ["BlockFlattener", "BlockFlattener"]
      = .error (.invariantViolation "duplicate step name") :=
  C6_registry_consistency.2.2.2.2.2.2.2.2 ["BlockFlattener", "BlockFlattener"] (by decide)

/-- C8 (counterexample): a tree whose only top-level statement is an empty
nested block keeps it — the finishing step requires *more than one*
top-level statement before it removes anything, refuting the claim's
"regardless of how many top-level statements the tree has". -/
theorem C8_counterexample_single_empty_block_kept :
    wasmFinish ⟨[.blockStmt []]⟩ = .ok ⟨[.blockStmt []]⟩ ∧
    (⟨[.blockStmt []]⟩ : Block) ≠ ⟨[]⟩ := by
  exact ⟨rfl, by decide⟩

/-- C8 (amended): for a tree whose first top-level statement is a nested
block, the Wasm finishing step removes that first statement if and only if
the block is empty *and* the tree has more than one top-level statement. -/
theorem C8_amended_removes_iff_empty_and_more_than_one (ss tail : List Stmt) :
    wasmFinish ⟨.blockStmt ss :: tail⟩
      = .ok (if ss = [] ∧ tail ≠ [] then ⟨tail⟩ else ⟨.blockStmt ss :: tail⟩) := by
  cases tail with
  | nil => simp [wasmFinish]
  | cons t ts =>
    cases ss with
    | nil => simp [wasmFinish]
    | cons s rest => simp [wasmFinish]

/-- C9 (counterexample): inserting a tab character changes whether an error
is raised — `"\t"` raises the invalid-abbreviation error while the empty
string raises none — refuting "including ... tabs, and carriage returns". -/
theorem C9_counterexample_tab_raises :
    (OptimiserSuite.runSequence (fun _ t => t) "\t" ⟨[]⟩).err
        = some (.optimizer "Invalid optimisation step abbreviation") ∧
    (OptimiserSuite.runSequence (fun _ t => t) "" ⟨[]⟩).err = none := by
  decide

/-- C9 (amended): only space and newline are ignored — deleting them from an
abbreviation string changes neither the passes run, nor their order, nor the
tree, nor the error outcome — while tab and carriage return are invalid
abbreviation characters that raise the malformed-schedule error. -/
theorem C9_amended_space_newline_only (impl : StepImpl) :
    (∀ (cs : List Char) (il : Bool) (steps : List String) (b : Block) (tr : List String),
      runSequenceAux impl cs il steps b tr
        = runSequenceAux impl (cs.filter notWs) il steps b tr) ∧
    (∀ (s : String) (b : Block),
      OptimiserSuite.runSequence impl s b
        = runSequenceAux impl (s.data.filter notWs) false [] b []) ∧
    (∀ b : Block,
      (OptimiserSuite.runSequence impl "\t" b).err
        = some (.optimizer "Invalid optimisation step abbreviation")) ∧
    (∀ b : Block,
      (OptimiserSuite.runSequence impl "\r" b).err
        = some (.optimizer "Invalid optimisation step abbreviation")) := by
  refine ⟨runSequenceAux_filter_ws impl, ?_, fun b => rfl, fun b => rfl⟩
  intro s b
  exact runSequenceAux_filter_ws impl s.data false [] b []

end YulOpt
